import Mathlib

/-!
# Screenwright timeline and compositor engine — verification development

Shallow embedding of the deterministic timeline / compositor core of the
`screenwright` CLI, together with theorems checking the natural-language
specification against the code.

Conventions of the embedding:
* JavaScript numbers that hold millisecond times, progress values or frame
  rates are modelled as `ℚ` (the computations involved are exact on the
  rationals that actually occur); frame counts and indices are `ℤ` or `ℕ`.
* `Array.prototype.sort` with a consistent comparator is modelled by a
  stable insertion sort (`sortBy`).
* `Math.round x` is `round x` (both map `k + 1/2` to `k + 1`);
  `Math.ceil` is `Int.ceil`.
* Fallible code returns `Except`; a JS `throw` is `.error`.
* Array accesses that would be `undefined` (and then throw on property
  access) in JS are totalised with a default; every theorem below only
  evaluates the embedding away from those crash points.
-/

namespace Screenwright

/-- Stable insertion of `x` into `l`: `x` is placed before the first element
`y` with `le x y`.  Folded over a list this yields the unique stable sort,
which is what `Array.prototype.sort` produces for a consistent comparator. -/
def insertBy (le : α → α → Bool) (x : α) : List α → List α
  | [] => [x]
  | y :: ys => if le x y then x :: y :: ys else y :: insertBy le x ys

/-- Stable sort modelling `Array.prototype.sort` with a consistent
comparator (`le a b` = "comparator a b ≤ 0"). -/
def sortBy (le : α → α → Bool) : List α → List α
  | [] => []
  | x :: xs => insertBy le x (sortBy le xs)

theorem length_insertBy (le : α → α → Bool) (x : α) (l : List α) :
    (insertBy le x l).length = l.length + 1 := by
  induction l with
  | nil => rfl
  | cons y ys ih =>
    simp only [insertBy]
    split <;> simp [ih]

theorem length_sortBy (le : α → α → Bool) (l : List α) :
    (sortBy le l).length = l.length := by
  induction l with
  | nil => rfl
  | cons x xs ih => simp [sortBy, length_insertBy, ih]

theorem mem_insertBy (le : α → α → Bool) (x : α) (l : List α) (a : α) :
    a ∈ insertBy le x l ↔ a = x ∨ a ∈ l := by
  induction l with
  | nil => simp [insertBy]
  | cons y ys ih =>
    simp only [insertBy]
    split
    · simp [List.mem_cons]
    · simp only [List.mem_cons, ih]
      tauto

theorem mem_sortBy (le : α → α → Bool) (l : List α) (a : α) :
    a ∈ sortBy le l ↔ a ∈ l := by
  induction l with
  | nil => simp [sortBy]
  | cons x xs ih => simp [sortBy, mem_insertBy, ih, List.mem_cons]

/-- On a list that is already pairwise ordered for `le`, the stable sort is
the identity (so sorting an already-sorted JS array leaves it unchanged). -/
theorem sortBy_eq_self_of_pairwise (le : α → α → Bool) (l : List α)
    (h : l.Pairwise (fun a b => le a b = true)) : sortBy le l = l := by
  induction l with
  | nil => rfl
  | cons x xs ih =>
    rcases List.pairwise_cons.mp h with ⟨hx, hxs⟩
    have : sortBy le (x :: xs) = insertBy le x xs := by
      simp [sortBy, ih hxs]
    rw [this]
    cases xs with
    | nil => rfl
    | cons y ys => simp [insertBy, hx y (by simp)]

/-! ## Data model: manifest entries and transition markers

From `src/timeline/types.ts` and the fields used by
`src/composition/frame-resolve.js`. -/

/-- `ManifestEntry`: `{type:'frame', file}` or `{type:'hold', file, count}`. -/
inductive Entry where
  | frame (file : String)
  | hold (file : String) (count : ℤ)
deriving DecidableEq, Repr

/-- The `.file` property (present on both variants). -/
def Entry.file : Entry → String
  | .frame f => f
  | .hold f _ => f

/-- `TransitionMarker`: `afterEntryIndex`, `transition` kind, `durationFrames`,
and the optional `consumedFrames`, `beforeFile`, `afterFile` read by
`frame-resolve.js` (absent fields are `none`). -/
structure Marker where
  afterEntryIndex : ℤ
  transition : String
  durationFrames : ℤ
  consumedFrames : Option ℤ
  beforeFile : Option String
  afterFile : Option String
deriving DecidableEq, Repr

/-! ## Frame resolver (`src/composition/frame-resolve.js`) -/

/-- `entryFrameCount`. -/
def entryFrameCount : Entry → ℤ
  | .frame _ => 1
  | .hold _ count => count

/-- `expandedFrameCount`: total source frames, expanding holds. -/
def expandedFrameCount (manifest : List Entry) : ℤ :=
  manifest.foldl (fun count e => count + entryFrameCount e) 0

/-- The scanning loop of `sourceFrameImage`: first entry whose expanded
range contains `sourceFrame`. -/
def sourceFrameImageGo (sourceFrame : ℤ) : List Entry → ℤ → Option String
  | [], _ => none
  | entry :: rest, accumulated =>
    if sourceFrame < accumulated + entryFrameCount entry then some entry.file
    else sourceFrameImageGo sourceFrame rest (accumulated + entryFrameCount entry)

/-- `sourceFrameImage`: image file for a source frame index; falls back to
the last entry's file.  (On an empty manifest the JS code throws; here the
fallback yields `""`, a point no theorem below evaluates.) -/
def sourceFrameImage (manifest : List Entry) (sourceFrame : ℤ) : String :=
  match sourceFrameImageGo sourceFrame manifest 0 with
  | some f => f
  | none => (manifest.getLast?).elim "" Entry.file

/-- `entryToSourceFrame`: first expanded frame of entry `entryIndex`
(the JS loop runs while `i < entryIndex && i < manifest.length`). -/
def entryToSourceFrame (manifest : List Entry) (entryIndex : ℤ) : ℤ :=
  ((manifest.take entryIndex.toNat).map entryFrameCount).sum

/-- `lastSourceFrameOfEntry`.  (For an out-of-range `entryIndex` the JS code
throws on `manifest[entryIndex]`; here `getD` supplies a dummy entry, a point
no theorem below evaluates.) -/
def lastSourceFrameOfEntry (manifest : List Entry) (entryIndex : ℤ) : ℤ :=
  entryToSourceFrame manifest entryIndex +
    entryFrameCount (manifest.getD entryIndex.toNat (.frame "")) - 1

/-- `totalOutputFrames`: source frames plus inserted minus consumed
(`consumedFrames ?? 1`). -/
def totalOutputFrames (manifest : List Entry) (transitions : List Marker) : ℤ :=
  expandedFrameCount manifest +
    (transitions.map (fun t => t.durationFrames)).sum -
    (transitions.map (fun t => t.consumedFrames.getD 1)).sum

/-- Result of `resolveOutputFrame`: `{type:'source', file}` or
`{type:'transition', beforeFile, afterFile, progress, transition}`. -/
inductive ResolveResult where
  | source (file : String)
  | transition (beforeFile afterFile : String) (progress : ℚ) (kind : String)
deriving DecidableEq, Repr

/-- The source-mapping tail of `resolveOutputFrame` (after the loop exits or
breaks): subtract the accumulated offset, clamp, resolve via the manifest. -/
def resolveAsSource (outputFrame : ℤ) (manifest : List Entry) (offset : ℤ) :
    ResolveResult :=
  let sourceFrame := outputFrame - offset
  let clamped := max 0 (min sourceFrame (expandedFrameCount manifest - 1))
  .source (sourceFrameImage manifest clamped)

/-- The transition-walking loop of `resolveOutputFrame`. -/
def resolveGo (outputFrame : ℤ) (manifest : List Entry) :
    List Marker → ℤ → ResolveResult
  | [], offset => resolveAsSource outputFrame manifest offset
  | t :: rest, offset =>
    let sourceS := lastSourceFrameOfEntry manifest t.afterEntryIndex
    let outputS := sourceS + offset
    let transStart := outputS + 1
    let transEnd := outputS + t.durationFrames
    if outputFrame ≤ outputS then
      -- `break`: resolve as source with the offset accumulated so far
      resolveAsSource outputFrame manifest offset
    else if transStart ≤ outputFrame ∧ outputFrame ≤ transEnd then
      let progress : ℚ := (outputFrame - transStart + 1 : ℤ) / (t.durationFrames : ℚ)
      let beforeFile := t.beforeFile.getD (sourceFrameImage manifest sourceS)
      let afterEntryIdx := t.afterEntryIndex + 1
      let afterFile := t.afterFile.getD
        (if afterEntryIdx < (manifest.length : ℤ) then
          (manifest.getD afterEntryIdx.toNat (.frame "")).file
         else (manifest.getLast?).elim "" Entry.file)
      .transition beforeFile afterFile progress t.transition
    else
      resolveGo outputFrame manifest rest
        (offset + t.durationFrames - t.consumedFrames.getD 1)

/-- `resolveOutputFrame`: what to render for a given output frame. -/
def resolveOutputFrame (outputFrame : ℤ) (manifest : List Entry)
    (transitions : List Marker) : ResolveResult :=
  let sorted := sortBy (fun a b => a.afterEntryIndex ≤ b.afterEntryIndex) transitions
  resolveGo outputFrame manifest sorted 0

end Screenwright

namespace Screenwright

/-! ## Time remapper (`src/composition/time-remap.ts`) -/

/-- `ResolvedSlideScene`: a slide-bearing scene with resolved duration and
dead zone. -/
structure ResolvedSlideScene where
  timestampMs : ℚ
  slideDurationMs : ℚ
  deadAfterMs : ℚ
deriving DecidableEq, Repr

/-- `clampDeadZones`: return the end of the first dead zone containing
`sourceTime`, else `sourceTime`. -/
def clampDeadZones (sourceTime : ℚ) : List ResolvedSlideScene → ℚ
  | [] => sourceTime
  | ss :: rest =>
    if 0 < ss.deadAfterMs ∧ ss.timestampMs ≤ sourceTime ∧
        sourceTime < ss.timestampMs + ss.deadAfterMs then
      ss.timestampMs + ss.deadAfterMs
    else clampDeadZones sourceTime rest

/-- The slide-walking loop of `sourceTimeMs` (`sorted` is the full sorted
list, needed by `clampDeadZones`; `walk` is its unprocessed tail). -/
def sourceTimeGo (outputTimeMs : ℚ) (sorted : List ResolvedSlideScene) :
    List ResolvedSlideScene → ℚ → ℚ
  | [], accumulated => clampDeadZones (outputTimeMs - accumulated) sorted
  | ss :: rest, accumulated =>
    let slideStart := ss.timestampMs + accumulated
    let slideEnd := slideStart + ss.slideDurationMs
    if outputTimeMs < slideStart then
      clampDeadZones (outputTimeMs - accumulated) sorted
    else if outputTimeMs < slideEnd then
      ss.timestampMs
    else
      sourceTimeGo outputTimeMs sorted rest (accumulated + ss.slideDurationMs)

/-- `sourceTimeMs`: map an output-time position back to source time. -/
def sourceTimeMs (outputTimeMs : ℚ) (slideScenes : List ResolvedSlideScene) : ℚ :=
  let sorted := sortBy (fun a b => a.timestampMs ≤ b.timestampMs) slideScenes
  sourceTimeGo outputTimeMs sorted sorted 0

/-- A timeline event, abstracted to its `timestampMs` plus an opaque payload
standing for all other fields (the remapping passes only touch
`timestampMs`, via object spread). -/
structure Ev (α : Type) where
  timestampMs : ℚ
  payload : α
deriving DecidableEq, Repr

/-- The per-event offset loop of `remapEvents`: accumulate the durations of
the leading slides with `timestampMs ≤` the event's, `break` at the first
other one. -/
def slideOffsetFor (ts : ℚ) : List ResolvedSlideScene → ℚ
  | [] => 0
  | ss :: rest =>
    if ss.timestampMs ≤ ts then ss.slideDurationMs + slideOffsetFor ts rest
    else 0

/-- `remapEvents`: shift every event's `timestampMs` forward by the
accumulated durations of the slides at or before it. -/
def remapEvents (events : List (Ev α)) (slideScenes : List ResolvedSlideScene) :
    List (Ev α) :=
  let sorted := sortBy (fun a b => a.timestampMs ≤ b.timestampMs) slideScenes
  events.map (fun event =>
    { event with timestampMs := event.timestampMs + slideOffsetFor event.timestampMs sorted })

/-- Sum of `slideDurationMs` over a list (used to phrase slide windows). -/
def sumDurations (l : List ResolvedSlideScene) : ℚ :=
  (l.map (fun ss => ss.slideDurationMs)).sum

/-- **C1** — For the manifest `[Frame a, Frame b, Frame c]` and the single
transition marker `{afterEntryIndex 0, fade, durationFrames 3,
consumedFrames 1}`: `totalOutputFrames = 5`; output frame 0 resolves to
`Source a`; output frames 1, 2, 3 resolve to a transition descriptor with
`beforeFile = a`, `afterFile = b` and `progress = 1/3`, `2/3`, `1`
respectively; and output frame 4 resolves to `Source c`. -/
theorem c1_one_transition_scenario :
    let m : List Entry := [.frame "a", .frame "b", .frame "c"]
    let ts : List Marker := [⟨0, "fade", 3, some 1, none, none⟩]
    totalOutputFrames m ts = 5 ∧
    resolveOutputFrame 0 m ts = .source "a" ∧
    resolveOutputFrame 1 m ts = .transition "a" "b" (1 / 3) "fade" ∧
    resolveOutputFrame 2 m ts = .transition "a" "b" (2 / 3) "fade" ∧
    resolveOutputFrame 3 m ts = .transition "a" "b" 1 "fade" ∧
    resolveOutputFrame 4 m ts = .source "c" := by
  refine ⟨by decide, by decide, ?_, ?_, ?_, by decide⟩ <;>
    simp [resolveOutputFrame, resolveGo, sortBy, insertBy, lastSourceFrameOfEntry,
      entryToSourceFrame, entryFrameCount, sourceFrameImage, sourceFrameImageGo,
      Entry.file]

theorem sumDurations_nonneg (l : List ResolvedSlideScene)
    (h : ∀ x ∈ l, 0 ≤ x.slideDurationMs) : 0 ≤ sumDurations l := by
  induction l with
  | nil => simp [sumDurations]
  | cons x xs ih =>
    have hx := h x (by simp)
    have hxs := ih (fun y hy => h y (by simp [hy]))
    simp only [sumDurations, List.map_cons, List.sum_cons]
    have : 0 ≤ (xs.map (fun ss => ss.slideDurationMs)).sum := hxs
    linarith

/-- During a slide's output window the walking loop of `sourceTimeMs`
returns the slide's scene timestamp, for any accumulated offset. -/
theorem sourceTimeGo_freeze (t : ℚ) (sorted : List ResolvedSlideScene)
    (s : ResolvedSlideScene) (l₂ : List ResolvedSlideScene) :
    ∀ (l₁ : List ResolvedSlideScene) (acc : ℚ),
      (∀ x ∈ l₁, x.timestampMs ≤ s.timestampMs ∧ 0 ≤ x.slideDurationMs) →
      s.timestampMs + acc + sumDurations l₁ ≤ t →
      t < s.timestampMs + acc + sumDurations l₁ + s.slideDurationMs →
      sourceTimeGo t sorted (l₁ ++ s :: l₂) acc = s.timestampMs := by
  intro l₁
  induction l₁ with
  | nil =>
    intro acc _ hlo hhi
    have h0 : sumDurations ([] : List ResolvedSlideScene) = 0 := by simp [sumDurations]
    rw [h0] at hlo hhi
    simp only [List.nil_append, sourceTimeGo]
    rw [if_neg (by linarith), if_pos (by linarith)]
  | cons x l₁ ih =>
    intro acc hall hlo hhi
    have hx := hall x (by simp)
    have hrest : ∀ y ∈ l₁, y.timestampMs ≤ s.timestampMs ∧ 0 ≤ y.slideDurationMs :=
      fun y hy => hall y (by simp [hy])
    have hsum : 0 ≤ sumDurations l₁ :=
      sumDurations_nonneg l₁ (fun y hy => (hrest y hy).2)
    have hcons : sumDurations (x :: l₁) = x.slideDurationMs + sumDurations l₁ := by
      simp [sumDurations]
    rw [hcons] at hlo hhi
    simp only [List.cons_append, sourceTimeGo]
    rw [if_neg (by linarith [hx.1, hx.2]), if_neg (by linarith [hx.1, hx.2])]
    exact ih (acc + x.slideDurationMs) hrest (by linarith) (by linarith)

/-- **C4** — For a sorted list of slide scenes, every output time inside
slide `s`'s output window `[slideStart, slideStart + slideDurationMs)`
(where `slideStart` is `s.timestampMs` plus the durations of all earlier
slides) is mapped by `sourceTimeMs` to `s.timestampMs` (freeze-frame).
Slide durations are nonnegative per the data model (the validator rejects
non-positive slide durations). -/
theorem c4_slide_freeze (l₁ l₂ : List ResolvedSlideScene)
    (s : ResolvedSlideScene) (t : ℚ)
    (hsorted : (l₁ ++ s :: l₂).Pairwise (fun a b => a.timestampMs ≤ b.timestampMs))
    (hdur : ∀ x ∈ l₁ ++ s :: l₂, 0 ≤ x.slideDurationMs)
    (hlo : s.timestampMs + sumDurations l₁ ≤ t)
    (hhi : t < s.timestampMs + sumDurations l₁ + s.slideDurationMs) :
    sourceTimeMs t (l₁ ++ s :: l₂) = s.timestampMs := by
  have hid : sortBy (fun a b => a.timestampMs ≤ b.timestampMs) (l₁ ++ s :: l₂) =
      l₁ ++ s :: l₂ := by
    apply sortBy_eq_self_of_pairwise
    exact hsorted.imp (fun h => by simpa using h)
  have hx : ∀ x ∈ l₁, x.timestampMs ≤ s.timestampMs ∧ 0 ≤ x.slideDurationMs := by
    intro x hmem
    refine ⟨?_, hdur x (by simp [hmem])⟩
    have := (List.pairwise_append.mp hsorted).2.2
    exact this x hmem s (by simp)
  show sourceTimeGo t _ _ 0 = s.timestampMs
  rw [hid]
  exact sourceTimeGo_freeze t _ s l₂ l₁ 0 hx (by linarith) (by linarith)

theorem c4_slide_freeze_witness :
    sourceTimeMs 100 [⟨0, 2000, 0⟩] = (0 : ℚ) :=
  c4_slide_freeze [] [] ⟨0, 2000, 0⟩ 100 (by simp) (by simp)
    (by simp [sumDurations]) (by simp [sumDurations]; norm_num)

/-- Structure eta for events (used to show the identity remap). -/
theorem Ev.mk_eta (e : Ev α) : Ev.mk e.timestampMs e.payload = e := rfl

/-- **C8** — With an empty slide list the remapping is the identity:
`sourceTimeMs t [] = t` and `remapEvents events [] = events`. -/
theorem c8_empty_identity (α : Type) (t : ℚ) (events : List (Ev α)) :
    sourceTimeMs t [] = t ∧ remapEvents events [] = events := by
  constructor
  · show sourceTimeGo t _ _ 0 = t
    simp [sortBy, sourceTimeGo, clampDeadZones]
  · show events.map _ = events
    simp only [sortBy, slideOffsetFor, add_zero, Ev.mk_eta, List.map_id]
    exact List.map_id events

/-! ## Event remapping for transitions
(`src/composition/frame-resolve.js`, `remapEventsForOutput`) -/

/-- `DEFAULT_FRAME_MS = 1000 / 16`. -/
def DEFAULT_FRAME_MS : ℚ := 1000 / 16

/-- `fps ? 1000 / fps : DEFAULT_FRAME_MS` (`0` is falsy in JS). -/
def frameMsOfFps (fps : ℚ) : ℚ :=
  if fps = 0 then DEFAULT_FRAME_MS else 1000 / fps

/-- The per-event offset loop of `remapEventsForOutput`: for every
transition whose source timestamp is strictly before the event, add
`(durationFrames − consumedFrames) × FRAME_MS` (no early exit). -/
def transitionOffsetFor (manifest : List Entry) (frameMs : ℚ) (ts : ℚ) :
    List Marker → ℚ
  | [] => 0
  | t :: rest =>
    let transitionSourceMs : ℚ :=
      (lastSourceFrameOfEntry manifest t.afterEntryIndex : ℚ) * frameMs
    (if transitionSourceMs < ts then
        ((t.durationFrames - t.consumedFrames.getD 1 : ℤ) : ℚ) * frameMs
      else 0) + transitionOffsetFor manifest frameMs ts rest

/-- `remapEventsForOutput`: offset event timestamps to account for
transition insertions (events with `offsetMs === 0` are returned as-is). -/
def remapEventsForOutput (events : List (Ev α)) (manifest : List Entry)
    (transitions : List Marker) (fps : ℚ) : List (Ev α) :=
  let frameMs := frameMsOfFps fps
  let sorted := sortBy (fun a b => a.afterEntryIndex ≤ b.afterEntryIndex) transitions
  events.map (fun event =>
    let offsetMs := transitionOffsetFor manifest frameMs event.timestampMs sorted
    if offsetMs = 0 then event
    else { event with timestampMs := event.timestampMs + offsetMs })

/-- Non-decreasing event timestamps. -/
def eventsSortedByTs (events : List (Ev α)) : Prop :=
  events.Pairwise (fun a b => a.timestampMs ≤ b.timestampMs)

instance (events : List (Ev α)) [DecidableEq α] :
    Decidable (eventsSortedByTs events) :=
  List.instDecidablePairwise events

theorem slideOffsetFor_nonneg (ts : ℚ) (l : List ResolvedSlideScene)
    (h : ∀ ss ∈ l, 0 ≤ ss.slideDurationMs) : 0 ≤ slideOffsetFor ts l := by
  induction l with
  | nil => simp [slideOffsetFor]
  | cons x xs ih =>
    have hx := h x (by simp)
    have hxs := ih (fun ss hss => h ss (by simp [hss]))
    simp only [slideOffsetFor]
    split
    · linarith
    · linarith

theorem slideOffsetFor_mono (l : List ResolvedSlideScene)
    (h : ∀ ss ∈ l, 0 ≤ ss.slideDurationMs) (ts₁ ts₂ : ℚ) (hts : ts₁ ≤ ts₂) :
    slideOffsetFor ts₁ l ≤ slideOffsetFor ts₂ l := by
  induction l with
  | nil => simp [slideOffsetFor]
  | cons x xs ih =>
    have hx := h x (by simp)
    have hxs : ∀ ss ∈ xs, 0 ≤ ss.slideDurationMs :=
      fun ss hss => h ss (by simp [hss])
    simp only [slideOffsetFor]
    by_cases h₁ : x.timestampMs ≤ ts₁
    · rw [if_pos h₁, if_pos (le_trans h₁ hts)]
      have := ih hxs
      linarith
    · rw [if_neg h₁]
      split
      · have := slideOffsetFor_nonneg ts₂ xs hxs
        linarith
      · exact le_refl 0

theorem transitionOffsetFor_mono (manifest : List Entry) (frameMs : ℚ)
    (hf : 0 ≤ frameMs) (l : List Marker)
    (h : ∀ t ∈ l, t.consumedFrames.getD 1 ≤ t.durationFrames)
    (ts₁ ts₂ : ℚ) (hts : ts₁ ≤ ts₂) :
    transitionOffsetFor manifest frameMs ts₁ l ≤
      transitionOffsetFor manifest frameMs ts₂ l := by
  induction l with
  | nil => simp [transitionOffsetFor]
  | cons t rest ih =>
    have ht := h t (by simp)
    have hrest := ih (fun u hu => h u (by simp [hu]))
    have hw : 0 ≤ ((t.durationFrames - t.consumedFrames.getD 1 : ℤ) : ℚ) * frameMs := by
      apply mul_nonneg _ hf
      exact_mod_cast sub_nonneg.mpr ht
    simp only [transitionOffsetFor]
    by_cases h₁ :
        (lastSourceFrameOfEntry manifest t.afterEntryIndex : ℚ) * frameMs < ts₁
    · rw [if_pos h₁, if_pos (lt_of_lt_of_le h₁ hts)]
      linarith
    · rw [if_neg h₁]
      split
      · linarith
      · linarith

theorem frameMsOfFps_nonneg (fps : ℚ) (h : 0 ≤ fps) : 0 ≤ frameMsOfFps fps := by
  unfold frameMsOfFps DEFAULT_FRAME_MS
  split
  · norm_num
  · positivity

/-- The `offsetMs === 0` early return of `remapEventsForOutput` does not
change the resulting timestamp. -/
theorem remapBranch_ts (e : Ev α) (off : ℚ) :
    (if off = 0 then e
      else { e with timestampMs := e.timestampMs + off }).timestampMs =
      e.timestampMs + off := by
  split
  · simp [*]
  · rfl

/-- **C5 counterexample** — the claim fails as stated: with the sorted
event list `[ts 0, ts 1]`, the manifest `[Frame a]` and a single transition
marker with `durationFrames = 1 < consumedFrames = 2` (both `≥ 1`, so valid
per the schema), `remapEventsForOutput` at `fps = 1` produces the
decreasing timestamps `[0, -999]`. -/
theorem c5_counterexample :
    eventsSortedByTs [(⟨0, ()⟩ : Ev Unit), ⟨1, ()⟩] ∧
    ¬ eventsSortedByTs (remapEventsForOutput [(⟨0, ()⟩ : Ev Unit), ⟨1, ()⟩]
        [.frame "a"] [⟨0, "fade", 1, some 2, none, none⟩] 1) := by
  have hval : remapEventsForOutput [(⟨0, ()⟩ : Ev Unit), ⟨1, ()⟩]
      [.frame "a"] [⟨0, "fade", 1, some 2, none, none⟩] 1 =
      [⟨0, ()⟩, ⟨-999, ()⟩] := by
    norm_num [remapEventsForOutput, sortBy, insertBy, transitionOffsetFor,
      lastSourceFrameOfEntry, entryToSourceFrame, entryFrameCount, frameMsOfFps]
  refine ⟨by decide, ?_⟩
  rw [hval]
  intro h
  have := (List.pairwise_cons.mp h).1 ⟨-999, ()⟩ (by simp)
  norm_num at this

/-- **C5 (amended)** — The downstream remapping passes preserve
non-decreasing event-timestamp order, for slide lists with nonnegative
durations and transition lists whose markers have a valid
`afterEntryIndex` and `durationFrames ≥ consumedFrames` (with
`consumedFrames` defaulting to 1), at any nonnegative fps. -/
theorem c5_remap_preserves_order (α : Type) (events : List (Ev α))
    (slides : List ResolvedSlideScene) (manifest : List Entry)
    (transitions : List Marker) (fps : ℚ)
    (hev : eventsSortedByTs events)
    (hslides : ∀ ss ∈ slides, 0 ≤ ss.slideDurationMs)
    (htrans : ∀ t ∈ transitions, t.consumedFrames.getD 1 ≤ t.durationFrames)
    (hidx : ∀ t ∈ transitions,
      0 ≤ t.afterEntryIndex ∧ t.afterEntryIndex < (manifest.length : ℤ))
    (hfps : 0 ≤ fps) :
    eventsSortedByTs (remapEvents events slides) ∧
    eventsSortedByTs (remapEventsForOutput events manifest transitions fps) := by
  have hslides' : ∀ ss ∈ sortBy
      (fun a b => a.timestampMs ≤ b.timestampMs) slides, 0 ≤ ss.slideDurationMs :=
    fun ss hss => hslides ss ((mem_sortBy _ slides ss).mp hss)
  have htrans' : ∀ t ∈ sortBy
      (fun a b => a.afterEntryIndex ≤ b.afterEntryIndex) transitions,
      t.consumedFrames.getD 1 ≤ t.durationFrames :=
    fun t ht => htrans t ((mem_sortBy _ transitions t).mp ht)
  constructor
  · refine List.Pairwise.map _ (fun a b hab => ?_) hev
    show (Ev.mk _ _).timestampMs ≤ (Ev.mk _ _).timestampMs
    have := slideOffsetFor_mono _ hslides' a.timestampMs b.timestampMs hab
    simpa using add_le_add hab this
  · refine List.Pairwise.map _ (fun a b hab => ?_) hev
    rw [remapBranch_ts, remapBranch_ts]
    have hf := frameMsOfFps_nonneg fps hfps
    have := transitionOffsetFor_mono manifest _ hf _ htrans'
      a.timestampMs b.timestampMs hab
    exact add_le_add hab this

theorem c5_remap_preserves_order_witness :
    eventsSortedByTs (remapEvents [(⟨0, ()⟩ : Ev Unit), ⟨5, ()⟩] [⟨0, 100, 0⟩]) ∧
    eventsSortedByTs (remapEventsForOutput [(⟨0, ()⟩ : Ev Unit), ⟨5, ()⟩]
      [.frame "a"] [⟨0, "fade", 3, some 1, none, none⟩] 16) :=
  c5_remap_preserves_order Unit [⟨0, ()⟩, ⟨5, ()⟩] [⟨0, 100, 0⟩] [.frame "a"]
    [⟨0, "fade", 3, some 1, none, none⟩] 16 (by decide) (by decide) (by decide)
    (by decide) (by decide)

/-! ## Capture loop (`src/runtime/instrumented-page.js`, `runCaptureLoop`) -/

/-- `String.padStart(n, '0')`. -/
def padStartZeros (s : String) (n : ℕ) : String :=
  if n ≤ s.length then s else String.mk (List.replicate (n - s.length) '0') ++ s

/-- `` `frame-${String(counter).padStart(6, '0')}.jpg` ``. -/
def frameFilename (counter : ℕ) : String :=
  "frame-" ++ padStartZeros (toString counter) 6 ++ ".jpg"

/-- The mutable state of `runCaptureLoop`, plus `diskWrites`, the ordered
list of filenames handed to `writeFile`. -/
structure CaptureState where
  manifest : List Entry
  lastFrameHash : String
  lastFrameFile : String
  frameFileCounter : ℕ
  virtualFrameIndex : ℕ
  dedupedFrames : ℕ
  captureFailures : ℕ
  diskWrites : List String
deriving DecidableEq, Repr

/-- The state at the top of `runScenario` (empty manifest, counters at 0). -/
def initialCaptureState : CaptureState := ⟨[], "", "", 0, 0, 0, 0, []⟩

/-- One iteration of the `while (captureRunning)` body of `runCaptureLoop`.
The screenshot outcome is `none` for a thrown screenshot (failure counter
incremented, no manifest entry, no clock advance) or `some hash` for a
captured buffer, identified by its MD5 content hash (the hash comparison is
all the loop looks at, so the buffer is represented by its hash). -/
def captureTick (st : CaptureState) (shot : Option String) : CaptureState :=
  match shot with
  | none => { st with captureFailures := st.captureFailures + 1 }
  | some hash =>
    if hash = st.lastFrameHash ∧ st.lastFrameFile ≠ "" then
      -- screen unchanged: reuse the previous frame file, no disk write
      { st with
        manifest := st.manifest ++ [.frame st.lastFrameFile],
        dedupedFrames := st.dedupedFrames + 1,
        virtualFrameIndex := st.virtualFrameIndex + 1 }
    else
      -- new frame: write to disk under the next numbered filename
      { st with
        frameFileCounter := st.frameFileCounter + 1,
        diskWrites := st.diskWrites ++ [frameFilename (st.frameFileCounter + 1)],
        lastFrameFile := "frames/" ++ frameFilename (st.frameFileCounter + 1),
        lastFrameHash := hash,
        manifest := st.manifest ++ [.frame ("frames/" ++ frameFilename (st.frameFileCounter + 1))],
        virtualFrameIndex := st.virtualFrameIndex + 1 }

/-- `true` exactly on `Hold` manifest entries. -/
def Entry.isHold : Entry → Bool
  | .hold _ _ => true
  | .frame _ => false

/-- **C2 counterexample** — the claim fails as stated: two consecutive
screenshots with the same content hash leave the manifest as two `Frame`
entries sharing one file; no `Hold` entry is appended (nor is any tail
`Hold` count incremented) — the dedup path of the capture loop pushes
`{type:'frame', file: lastFrameFile}`. -/
theorem c2_counterexample :
    (captureTick (captureTick initialCaptureState (some "h")) (some "h")).manifest =
      [.frame "frames/frame-000001.jpg", .frame "frames/frame-000001.jpg"] ∧
    (∀ e ∈ (captureTick (captureTick initialCaptureState (some "h"))
        (some "h")).manifest, e.isHold = false) ∧
    (captureTick (captureTick initialCaptureState (some "h")) (some "h")).dedupedFrames
      = 1 := by
  decide

/-- **C2 (amended)** — In the capture loop, whenever a captured
screenshot's content hash equals the previous frame's hash (and a previous
frame file exists), the loop appends a `Frame` entry that reuses the
previous frame's file, with no disk write (the dedup counter increments);
only a screenshot with a new hash causes a disk write under the next
monotonically numbered filename together with a `Frame{file}` append; in
both cases the virtual-frame index increments by one. -/
theorem c2_capture_dedup (st : CaptureState) (hash : String) :
    (hash = st.lastFrameHash ∧ st.lastFrameFile ≠ "" →
      captureTick st (some hash) =
        { st with
          manifest := st.manifest ++ [.frame st.lastFrameFile],
          dedupedFrames := st.dedupedFrames + 1,
          virtualFrameIndex := st.virtualFrameIndex + 1 }) ∧
    (¬(hash = st.lastFrameHash ∧ st.lastFrameFile ≠ "") →
      captureTick st (some hash) =
        { st with
          frameFileCounter := st.frameFileCounter + 1,
          diskWrites := st.diskWrites ++ [frameFilename (st.frameFileCounter + 1)],
          lastFrameFile := "frames/" ++ frameFilename (st.frameFileCounter + 1),
          lastFrameHash := hash,
          manifest := st.manifest ++
            [.frame ("frames/" ++ frameFilename (st.frameFileCounter + 1))],
          virtualFrameIndex := st.virtualFrameIndex + 1 }) := by
  constructor <;> intro h
  · show (if hash = st.lastFrameHash ∧ st.lastFrameFile ≠ "" then _ else _) = _
    rw [if_pos h]
  · show (if hash = st.lastFrameHash ∧ st.lastFrameFile ≠ "" then _ else _) = _
    rw [if_neg h]

theorem c2_capture_dedup_witness :
    captureTick (captureTick initialCaptureState (some "h")) (some "h") =
      { captureTick initialCaptureState (some "h") with
        manifest := (captureTick initialCaptureState (some "h")).manifest ++
          [.frame (captureTick initialCaptureState (some "h")).lastFrameFile],
        dedupedFrames :=
          (captureTick initialCaptureState (some "h")).dedupedFrames + 1,
        virtualFrameIndex :=
          (captureTick initialCaptureState (some "h")).virtualFrameIndex + 1 } :=
  (c2_capture_dedup (captureTick initialCaptureState (some "h")) "h").1 (by decide)

/-! ## Scenario runner state
(`src/runtime/instrumented-page.ts` recording context and
`src/runtime/action-helpers.ts`) -/

/-- The runner's capture state: frame manifest, virtual clock, recorded
transition markers and the pending-transition flag. -/
structure RecState where
  manifest : List Entry
  virtualFrameIndex : ℤ
  transitionMarkers : List Marker
  transitionPending : Bool
deriving DecidableEq, Repr

/-- `FRAME_INTERVAL_MS = 1000 / 30` (the TS runner records at 30 fps). -/
def FRAME_INTERVAL_MS : ℚ := 1000 / 30

/-- `currentTimeMs()`: `virtualFrameIndex × 1000/30`. -/
def currentTimeMs (st : RecState) : ℚ :=
  (st.virtualFrameIndex : ℚ) * FRAME_INTERVAL_MS

/-- `addHold(file, count)`: extend the manifest tail by `count` virtual
frames without new I/O; a non-positive `count` is a no-op. -/
def addHold (file : String) (count : ℤ) (st : RecState) : RecState :=
  if count ≤ 0 then st
  else
    { st with
      manifest := st.manifest ++ [.hold file count],
      virtualFrameIndex := st.virtualFrameIndex + count }

/-- The manifest invariant on a single entry: every `Hold` has `count ≥ 1`. -/
def holdCountOK : Entry → Prop
  | .hold _ count => 1 ≤ count
  | .frame _ => True

/-- **C10** — `addHold(file, count)` with `count ≤ 0` is a complete no-op
(manifest and virtual clock, hence `currentTimeMs`, unchanged); with
`count ≥ 1` it appends exactly one `Hold{file, count}` entry at the tail
and advances the virtual frame index by exactly `count`; consequently every
call preserves the invariant that every `Hold` entry has `count ≥ 1`. -/
theorem c10_addHold_effect (file : String) (count : ℤ) (st : RecState) :
    (count ≤ 0 → addHold file count st = st ∧
      currentTimeMs (addHold file count st) = currentTimeMs st) ∧
    (1 ≤ count → addHold file count st =
      { st with
        manifest := st.manifest ++ [.hold file count],
        virtualFrameIndex := st.virtualFrameIndex + count }) ∧
    ((∀ e ∈ st.manifest, holdCountOK e) →
      ∀ e ∈ (addHold file count st).manifest, holdCountOK e) := by
  refine ⟨fun h => ?_, fun h => ?_, fun hinv e he => ?_⟩
  · have : addHold file count st = st := by
      show (if count ≤ 0 then st else _) = st
      rw [if_pos h]
    exact ⟨this, by rw [this]⟩
  · show (if count ≤ 0 then st else _) = _
    rw [if_neg (by omega)]
  · by_cases h : count ≤ 0
    · rw [show addHold file count st = st by
        show (if count ≤ 0 then st else _) = st
        rw [if_pos h]] at he
      exact hinv e he
    · have : addHold file count st =
          { st with
            manifest := st.manifest ++ [.hold file count],
            virtualFrameIndex := st.virtualFrameIndex + count } := by
        show (if count ≤ 0 then st else _) = _
        rw [if_neg h]
      rw [this] at he
      rcases List.mem_append.mp he with hmem | hmem
      · exact hinv e hmem
      · rcases List.mem_singleton.mp hmem with rfl
        show 1 ≤ count
        omega

theorem c10_addHold_effect_witness :
    addHold "frames/frame-000002.jpg" 3 ⟨[.frame "frames/frame-000001.jpg"], 1, [], false⟩ =
      ⟨[.frame "frames/frame-000001.jpg", .hold "frames/frame-000002.jpg" 3], 4, [], false⟩ :=
  (c10_addHold_effect "frames/frame-000002.jpg" 3
    ⟨[.frame "frames/frame-000001.jpg"], 1, [], false⟩).2.1 (by decide)

/-! ## `sw.transition` (`src/runtime/action-helpers.ts`) -/

/-- A JavaScript number as far as the duration check of `sw.transition` is
concerned: a finite rational or one of the non-finite values. -/
inductive JsNum where
  | fin (q : ℚ)
  | nan
  | posInf
  | negInf
deriving DecidableEq, Repr

/-- JS `x <= 0` (false for `NaN`). -/
def JsNum.leZero : JsNum → Bool
  | .fin q => q ≤ 0
  | .nan => false
  | .posInf => false
  | .negInf => true

/-- JS `Number.isFinite`. -/
def JsNum.isFinite : JsNum → Bool
  | .fin _ => true
  | _ => false

/-- Value of a finite JS number (only consulted after the finiteness and
sign checks have passed). -/
def JsNum.toRat : JsNum → ℚ
  | .fin q => q
  | _ => 0

/-- `msToFrames` of `action-helpers.ts`: `Math.ceil(ms / 1000 * 30)`. -/
def msToFramesAt30 (ms : ℚ) : ℤ := ⌈ms / 1000 * 30⌉

/-- `sw.transition(opts)`: validate the resolved duration
(`opts.duration ?? 500`); on failure throw before any mutation (the
`.error` branch); otherwise pop a still-pending marker (warned replacement),
append one marker at the current manifest tail index and set
`transitionPending` (the capture pause itself has no effect on this
state). -/
def transitionHelper (optsType : Option String) (optsDuration : Option JsNum)
    (st : RecState) : Except String RecState :=
  let durationMs := optsDuration.getD (.fin 500)
  if durationMs.leZero || !durationMs.isFinite then
    .error "sw.transition duration must be a positive number"
  else
    let base := if st.transitionPending then st.transitionMarkers.dropLast
                else st.transitionMarkers
    .ok { st with
      transitionMarkers := base ++
        [⟨(st.manifest.length : ℤ) - 1, optsType.getD "fade",
          msToFramesAt30 durationMs.toRat, none, none, none⟩],
      transitionPending := true }

/-- **C7** — `sw.transition(opts)` fails with `InvalidArgument` if and only
if its resolved duration (`opts.duration`, defaulting to 500 ms) is `≤ 0`
or non-finite; in the error case it throws before touching any state (no
marker is appended, `transitionPending` is unchanged); with a positive
finite duration it appends exactly one `TransitionMarker` whose
`afterEntryIndex` is the current tail manifest entry index
(`manifest.length − 1`) — after popping a previous still-pending marker —
and sets `transitionPending` to `true`. -/
theorem c7_transition_validation (optsType : Option String)
    (optsDuration : Option JsNum) (st : RecState) :
    ((optsDuration.getD (.fin 500)).leZero = true ∨
        (optsDuration.getD (.fin 500)).isFinite = false →
      transitionHelper optsType optsDuration st =
        .error "sw.transition duration must be a positive number") ∧
    (¬((optsDuration.getD (.fin 500)).leZero = true ∨
        (optsDuration.getD (.fin 500)).isFinite = false) →
      transitionHelper optsType optsDuration st =
        .ok { st with
          transitionMarkers :=
            (if st.transitionPending then st.transitionMarkers.dropLast
             else st.transitionMarkers) ++
            [⟨(st.manifest.length : ℤ) - 1, optsType.getD "fade",
              msToFramesAt30 (optsDuration.getD (.fin 500)).toRat,
              none, none, none⟩],
          transitionPending := true }) := by
  constructor <;> intro h
  · show (if _ || _ then _ else _) = _
    rw [if_pos (by rcases h with h | h <;> simp [h])]
  · show (if _ || _ then _ else _) = _
    rw [if_neg (by
      intro hcond
      rcases Bool.or_eq_true_iff.mp hcond with hc | hc
      · exact h (Or.inl hc)
      · exact h (Or.inr (by simpa using hc)))]

theorem c7_transition_validation_witness :
    transitionHelper none none ⟨[.frame "frames/frame-000001.jpg"], 1, [], false⟩ =
      .ok ⟨[.frame "frames/frame-000001.jpg"], 1,
        [⟨0, "fade", msToFramesAt30 (JsNum.fin 500).toRat, none, none, none⟩],
        true⟩ :=
  (c7_transition_validation none none
    ⟨[.frame "frames/frame-000001.jpg"], 1, [], false⟩).2 (by decide)

/-! ## Narration divergence check
(`src/runtime/narration-preprocess.js` `validateNarrationCount` and the
post-recording skeleton of `src/commands/compose.js`) -/

/-- `validateNarrationCount(pregenerated, consumed)`: throw iff the counts
differ, return normally otherwise. -/
def validateNarrationCount (pregenerated consumed : ℤ) : Except String Unit :=
  if pregenerated ≠ consumed then
    .error "narration count mismatch between preprocessing and recording"
  else .ok ()

/-- Outcome of the compose pipeline after the recording step. -/
inductive ComposeOutcome where
  | abortedBeforeRender
  | rendered
deriving DecidableEq, Repr

/-- The post-recording control skeleton of `composeCommand`: when any
narrations were pre-generated (`pregenerated.length > 0`) the divergence
check runs immediately after `runScenario` returns; a throw is caught by
the record step's handler, which exits before the bundle/render steps;
otherwise the pipeline proceeds to render. -/
def composeAfterRecord (pregeneratedCount recordedCount : ℤ) : ComposeOutcome :=
  if 0 < pregeneratedCount then
    match validateNarrationCount pregeneratedCount recordedCount with
    | .error _ => .abortedBeforeRender
    | .ok _ => .rendered
  else .rendered

/-- **C6** — `validateNarrationCount(pregenerated, consumed)` throws a
`NarrationMismatch` error if and only if `pregenerated ≠ consumed` and
returns normally (changing nothing) when they are equal; the compose
pipeline invokes the check after recording and reaches the render steps if
and only if no narrations were pre-generated or the counts agree. -/
theorem c6_divergence_check (p c : ℤ) :
    (validateNarrationCount p c = .ok () ↔ p = c) ∧
    ((∃ msg, validateNarrationCount p c = .error msg) ↔ p ≠ c) ∧
    (composeAfterRecord p c = .rendered ↔ (p ≤ 0 ∨ p = c)) := by
  refine ⟨?_, ?_, ?_⟩
  · unfold validateNarrationCount
    by_cases h : p = c <;> simp [h]
  · unfold validateNarrationCount
    by_cases h : p = c <;> simp [h]
  · unfold composeAfterRecord validateNarrationCount
    by_cases h : p = c
    · subst h
      by_cases hp : 0 < p <;> simp [hp]
    · by_cases hp : 0 < p
      · simp only [h, hp, ne_eq, not_false_eq_true, if_true, if_pos]
        constructor
        · intro hcontra
          exact absurd hcontra (by decide)
        · intro hor
          rcases hor with hle | heq
          · omega
          · exact heq.elim
      · simp only [h, hp, ne_eq, not_false_eq_true, if_true, if_false]
        exact ⟨fun _ => Or.inl (by omega), fun _ => trivial⟩

/-! ## Silence-based narration alignment
(`src/runtime/narration-preprocess.js`, `mapSilencesToSegments`) -/

/-- A detected silence `{startMs, endMs}`. -/
structure Silence where
  startMs : ℚ
  endMs : ℚ
deriving DecidableEq, Repr

/-- A narration segment `{index, text, startMs, endMs, durationMs}`. -/
structure Segment where
  index : ℕ
  text : String
  startMs : ℚ
  endMs : ℚ
  durationMs : ℚ
deriving DecidableEq, Repr

/-- `Array.prototype.slice(0, endIdx)` (a negative `endIdx` counts back
from the length). -/
def jsSliceTo (endIdx : ℤ) (l : List α) : List α :=
  if endIdx < 0 then l.take ((l.length : ℤ) + endIdx).toNat
  else l.take endIdx.toNat

/-- `texts.reduce((sum, t) => sum + t.length, 0)`. -/
def totalChars (texts : List String) : ℕ := (texts.map String.length).sum

/-- The segment-building loop of the proportional fallback branch:
`durationMs = Math.round(t.length / totalChars × totalDurationMs)`,
cursor chaining. -/
def proportionalLoop (tc : ℕ) (totalDurationMs : ℚ) :
    List String → ℚ → ℕ → List Segment
  | [], _, _ => []
  | t :: rest, cursor, i =>
    let durationMs : ℚ :=
      ((round ((t.length : ℚ) / (tc : ℚ) * totalDurationMs) : ℤ) : ℚ)
    ⟨i, t, cursor, cursor + durationMs, durationMs⟩ ::
      proportionalLoop tc totalDurationMs rest (cursor + durationMs) (i + 1)

/-- The final patch of the fallback branch: the last segment's `endMs` is
set to the total duration and its `durationMs` adjusted accordingly. -/
def setLastEnd (totalDurationMs : ℚ) : List Segment → List Segment
  | [] => []
  | [s] =>
    [{ s with endMs := totalDurationMs, durationMs := totalDurationMs - s.startMs }]
  | s :: rest => s :: setLastEnd totalDurationMs rest

/-- The selected boundary midpoints of the main branch: rank the silences
by duration descending (stable), slice the first `N−1`, re-sort by start
time, and take `Math.round((startMs + endMs) / 2)` of each. -/
def splitPoints (texts : List String) (silences : List Silence) : List ℤ :=
  let ranked := sortBy (fun a b => b.endMs - b.startMs ≤ a.endMs - a.startMs) silences
  let sliced := jsSliceTo ((texts.length : ℤ) - 1) ranked
  let sorted := sortBy (fun a b => a.startMs ≤ b.startMs) sliced
  sorted.map (fun s => round ((s.startMs + s.endMs) / 2))

/-- The segment-building loop of the main branch: each segment ends at the
next split point (consumed positionally), the last at the total duration. -/
def boundaryLoop (totalDurationMs : ℚ) :
    List String → List ℤ → ℚ → ℕ → List Segment
  | [], _, _, _ => []
  | t :: rest, [], cursor, i =>
    ⟨i, t, cursor, totalDurationMs, totalDurationMs - cursor⟩ ::
      boundaryLoop totalDurationMs rest [] totalDurationMs (i + 1)
  | t :: rest, p :: ps, cursor, i =>
    ⟨i, t, cursor, (p : ℚ), (p : ℚ) - cursor⟩ ::
      boundaryLoop totalDurationMs rest ps (p : ℚ) (i + 1)

/-- `mapSilencesToSegments(texts, silences, totalDurationMs)`. -/
def mapSilencesToSegments (texts : List String) (silences : List Silence)
    (totalDurationMs : ℚ) : List Segment :=
  if (silences.length : ℤ) < (texts.length : ℤ) - 1 then
    setLastEnd totalDurationMs
      (proportionalLoop (totalChars texts) totalDurationMs texts 0 0)
  else
    boundaryLoop totalDurationMs texts (splitPoints texts silences) 0 0

/-- Structure of the main-branch loop: when there is exactly one split
point fewer than texts, the produced segments carry the texts in order,
start at the cursor, chain through the split points, and end at the total
duration. -/
theorem boundaryLoop_spec (T : ℚ) :
    ∀ (texts : List String) (ps : List ℤ) (cursor : ℚ) (i : ℕ),
      texts ≠ [] → ps.length + 1 = texts.length →
      (boundaryLoop T texts ps cursor i).map (fun s => s.text) = texts ∧
      (boundaryLoop T texts ps cursor i).map (fun s => s.startMs) =
        cursor :: ps.map (fun p => (p : ℚ)) ∧
      (boundaryLoop T texts ps cursor i).map (fun s => s.endMs) =
        ps.map (fun p => (p : ℚ)) ++ [T] ∧
      (∀ s ∈ boundaryLoop T texts ps cursor i,
        s.durationMs = s.endMs - s.startMs) ∧
      (boundaryLoop T texts ps cursor i).map (fun s => s.index) =
        List.range' i texts.length := by
  intro texts
  induction texts with
  | nil => intro ps cursor i h _; exact absurd rfl h
  | cons t rest ih =>
    intro ps cursor i _ hlen
    cases rest with
    | nil =>
      have hps : ps = [] := by
        cases ps with
        | nil => rfl
        | cons q qs => simp at hlen
      subst hps
      refine ⟨rfl, rfl, rfl, ?_, rfl⟩
      intro s hs
      rcases List.mem_singleton.mp hs with rfl
      rfl
    | cons u us =>
      cases ps with
      | nil => simp at hlen
      | cons p ps2 =>
        have hlen2 : ps2.length + 1 = (u :: us).length := by
          simpa using hlen
        obtain ⟨h1, h2, h3, h4, h5⟩ := ih ps2 (p : ℚ) (i + 1) (by simp) hlen2
        refine ⟨?_, ?_, ?_, ?_, ?_⟩
        · simpa [boundaryLoop] using h1
        · simpa [boundaryLoop] using h2
        · simpa [boundaryLoop] using h3
        · intro s hs
          rcases List.mem_cons.mp hs with rfl | hmem
          · rfl
          · exact h4 s hmem
        · simp only [boundaryLoop, List.map_cons, h5, List.length_cons]
          rw [List.range'_succ, List.range'_succ]
          simp [List.range'_succ]

/-- **C3** — For every nonempty text list and at least `N−1` detected
silences, `mapSilencesToSegments` selects the `N−1` longest silences,
re-sorts them by start time and uses each one's midpoint
`round((startMs+endMs)/2)` as a boundary (the `splitPoints`); segment `i`
spans from the previous boundary to boundary `i`, the first segment starts
at 0 and the last ends at the total duration.  In particular, for the texts
`["Alpha","Bravo","Charlie"]`, duration 6000 and silences
`(1800,2100), (3900,4200)`, the windows are `[0,1950)`, `[1950,4050)`,
`[4050,6000)`. -/
theorem c3_silence_alignment :
    (∀ (texts : List String) (silences : List Silence) (T : ℚ),
      texts ≠ [] →
      (texts.length : ℤ) - 1 ≤ (silences.length : ℤ) →
      (splitPoints texts silences).length + 1 = texts.length ∧
      (mapSilencesToSegments texts silences T).map (fun s => s.text) = texts ∧
      (mapSilencesToSegments texts silences T).map (fun s => s.startMs) =
        0 :: (splitPoints texts silences).map (fun p => (p : ℚ)) ∧
      (mapSilencesToSegments texts silences T).map (fun s => s.endMs) =
        (splitPoints texts silences).map (fun p => (p : ℚ)) ++ [T] ∧
      (∀ s ∈ mapSilencesToSegments texts silences T,
        s.durationMs = s.endMs - s.startMs)) ∧
    mapSilencesToSegments ["Alpha", "Bravo", "Charlie"]
      [⟨1800, 2100⟩, ⟨3900, 4200⟩] 6000 =
      [⟨0, "Alpha", 0, 1950, 1950⟩, ⟨1, "Bravo", 1950, 4050, 2100⟩,
       ⟨2, "Charlie", 4050, 6000, 1950⟩] := by
  constructor
  · intro texts silences T hne hM
    have hN : 1 ≤ texts.length := List.length_pos.mpr hne
    have hsp : (splitPoints texts silences).length + 1 = texts.length := by
      show ((sortBy _ (jsSliceTo _ (sortBy _ silences))).map _).length + 1 = _
      rw [List.length_map, length_sortBy]
      show (jsSliceTo ((texts.length : ℤ) - 1) _).length + 1 = _
      unfold jsSliceTo
      rw [if_neg (by omega)]
      rw [List.length_take, length_sortBy]
      omega
    have hbr : ¬ ((silences.length : ℤ) < (texts.length : ℤ) - 1) := by omega
    have hmap : mapSilencesToSegments texts silences T =
        boundaryLoop T texts (splitPoints texts silences) 0 0 := by
      unfold mapSilencesToSegments
      rw [if_neg hbr]
    obtain ⟨h1, h2, h3, h4, _⟩ :=
      boundaryLoop_spec T texts (splitPoints texts silences) 0 0 hne hsp
    rw [hmap]
    exact ⟨hsp, h1, h2, h3, h4⟩
  · norm_num [mapSilencesToSegments, splitPoints, sortBy, insertBy, jsSliceTo,
      boundaryLoop, round_eq]

theorem c3_silence_alignment_witness :
    (splitPoints ["Alpha", "Bravo", "Charlie"]
        [⟨1800, 2100⟩, ⟨3900, 4200⟩]).length + 1 = 3 ∧
    (mapSilencesToSegments ["Alpha", "Bravo", "Charlie"]
        [⟨1800, 2100⟩, ⟨3900, 4200⟩] 6000).map (fun s => s.startMs) =
      0 :: (splitPoints ["Alpha", "Bravo", "Charlie"]
        [⟨1800, 2100⟩, ⟨3900, 4200⟩]).map (fun p => (p : ℚ)) := by
  obtain ⟨hlen, _, hstarts, _, _⟩ :=
    c3_silence_alignment.1 ["Alpha", "Bravo", "Charlie"]
      [⟨1800, 2100⟩, ⟨3900, 4200⟩] 6000 (by decide) (by decide)
  exact ⟨hlen, hstarts⟩

/-- Running sums of a duration list: `[0, d₀, d₀+d₁, …]` (one element more
than the input). -/
def partialSums : List ℚ → List ℚ
  | [] => [0]
  | d :: ds => 0 :: (partialSums ds).map (fun x => d + x)

theorem map_add_partialSums (c d : ℚ) (l : List ℚ) :
    (partialSums (d :: l)).map (fun x => c + x) =
      c :: (partialSums l).map (fun x => c + d + x) := by
  rw [partialSums, List.map_cons, List.map_map]
  refine congrArg₂ _ (by norm_num) ?_
  exact List.map_congr_left (fun a _ => by
    simp only [Function.comp_apply]
    ring)

theorem proportionalLoop_eq_nil_iff (tc : ℕ) (T : ℚ) (texts : List String)
    (c : ℚ) (i : ℕ) : proportionalLoop tc T texts c i = [] ↔ texts = [] := by
  cases texts <;> simp [proportionalLoop]

theorem setLastEnd_eq_nil_iff (T : ℚ) (l : List Segment) :
    setLastEnd T l = [] ↔ l = [] := by
  cases l with
  | nil => simp [setLastEnd]
  | cons s rest => cases rest <;> simp [setLastEnd]

theorem setLastEnd_cons (T : ℚ) (s : Segment) (l : List Segment) (h : l ≠ []) :
    setLastEnd T (s :: l) = s :: setLastEnd T l := by
  cases l with
  | nil => exact absurd rfl h
  | cons a as => rfl

/-- Structure of the proportional fallback: the patched segment list
carries the texts in order; the start times are the running sums of the
rounded proportional durations (shifted by the cursor); every duration but
the last is the rounded proportional one, and the last one absorbs the
remainder up to the total duration. -/
theorem proportional_spec (tc : ℕ) (T : ℚ) :
    ∀ (texts : List String) (cursor : ℚ) (i : ℕ), texts ≠ [] →
      (setLastEnd T (proportionalLoop tc T texts cursor i)).map
          (fun s => s.text) = texts ∧
      (setLastEnd T (proportionalLoop tc T texts cursor i)).map
          (fun s => s.startMs) =
        (partialSums (texts.map (fun t =>
          ((round ((t.length : ℚ) / (tc : ℚ) * T) : ℤ) : ℚ))).dropLast).map
          (fun x => cursor + x) ∧
      (setLastEnd T (proportionalLoop tc T texts cursor i)).map
          (fun s => s.durationMs) =
        (texts.map (fun t =>
          ((round ((t.length : ℚ) / (tc : ℚ) * T) : ℤ) : ℚ))).dropLast ++
        [T - (cursor + ((texts.map (fun t =>
          ((round ((t.length : ℚ) / (tc : ℚ) * T) : ℤ) : ℚ))).dropLast).sum)] ∧
      (∀ s ∈ setLastEnd T (proportionalLoop tc T texts cursor i),
        s.endMs = s.startMs + s.durationMs) ∧
      ((setLastEnd T (proportionalLoop tc T texts cursor i)).map
          (fun s => s.endMs)).getLast? = some T := by
  intro texts
  induction texts with
  | nil => intro cursor i h; exact absurd rfl h
  | cons t rest ih =>
    intro cursor i _
    cases rest with
    | nil =>
      refine ⟨rfl, ?_, ?_, ?_, rfl⟩
      · show [cursor] = [0].map (fun x => cursor + x)
        simp
      · show [T - cursor] = [] ++ [T - (cursor + ([] : List ℚ).sum)]
        simp
      · intro s hs
        rcases List.mem_singleton.mp hs with rfl
        show T = cursor + (T - cursor)
        ring
    | cons u us =>
      have hne : proportionalLoop tc T (u :: us)
          (cursor + ((round ((t.length : ℚ) / (tc : ℚ) * T) : ℤ) : ℚ)) (i + 1) ≠ [] := by
        rw [ne_eq, proportionalLoop_eq_nil_iff]
        simp
      have hstep : setLastEnd T (proportionalLoop tc T (t :: u :: us) cursor i) =
          ⟨i, t, cursor,
            cursor + ((round ((t.length : ℚ) / (tc : ℚ) * T) : ℤ) : ℚ),
            ((round ((t.length : ℚ) / (tc : ℚ) * T) : ℤ) : ℚ)⟩ ::
          setLastEnd T (proportionalLoop tc T (u :: us)
            (cursor + ((round ((t.length : ℚ) / (tc : ℚ) * T) : ℤ) : ℚ)) (i + 1)) := by
        show setLastEnd T (_ :: _) = _
        rw [setLastEnd_cons _ _ _ hne]
      obtain ⟨h1, h2, h3, h4, h5⟩ := ih
        (cursor + ((round ((t.length : ℚ) / (tc : ℚ) * T) : ℤ) : ℚ)) (i + 1) (by simp)
      have hdrop : ((t :: u :: us).map (fun t =>
          ((round ((t.length : ℚ) / (tc : ℚ) * T) : ℤ) : ℚ))).dropLast =
          ((round ((t.length : ℚ) / (tc : ℚ) * T) : ℤ) : ℚ) ::
          ((u :: us).map (fun t =>
            ((round ((t.length : ℚ) / (tc : ℚ) * T) : ℤ) : ℚ))).dropLast := by
        simp [List.dropLast_cons₂]
      refine ⟨?_, ?_, ?_, ?_, ?_⟩
      · rw [hstep, List.map_cons, h1]
      · rw [hstep, List.map_cons, h2, hdrop, map_add_partialSums]
      · rw [hstep, List.map_cons, h3, hdrop, List.cons_append]
        show ((round ((t.length : ℚ) / (tc : ℚ) * T) : ℤ) : ℚ) :: _ = _
        refine congrArg₂ _ rfl (congrArg₂ _ rfl ?_)
        rw [List.sum_cons]
        refine congrArg₂ _ (by ring) rfl
      · intro s hs
        rw [hstep] at hs
        rcases List.mem_cons.mp hs with rfl | hmem
        · rfl
        · exact h4 s hmem
      · rw [hstep, List.map_cons]
        have hmapne : (setLastEnd T (proportionalLoop tc T (u :: us)
            (cursor + ((round ((t.length : ℚ) / (tc : ℚ) * T) : ℤ) : ℚ))
            (i + 1))).map (fun s => s.endMs) ≠ [] := by
          rw [ne_eq, List.map_eq_nil_iff, setLastEnd_eq_nil_iff]
          exact hne
        rcases List.exists_cons_of_ne_nil hmapne with ⟨b, bs, hbs⟩
        rw [hbs, List.getLast?_cons_cons, ← hbs, h5]

/-- **C9** — When fewer than `N−1` silences are detected,
`mapSilencesToSegments` falls back to proportional splitting by text
length: it returns `N` contiguous segments starting at 0 whose texts are
the inputs in order; segment `i < N−1` has
`durationMs = round(length(tᵢ) / totalChars × totalDurationMs)` and starts
at the sum of the previous durations; the last segment is adjusted to end
exactly at `totalDurationMs`.  (The positivity of `totalChars` rules out
the `NaN` durations a zero character count would produce in JS; narration
texts are non-empty per the data model.) -/
theorem c9_proportional_fallback (texts : List String) (silences : List Silence)
    (T : ℚ) (hne : texts ≠ [])
    (hM : (silences.length : ℤ) < (texts.length : ℤ) - 1)
    (htc : 0 < totalChars texts) :
    (mapSilencesToSegments texts silences T).map (fun s => s.text) = texts ∧
    (mapSilencesToSegments texts silences T).map (fun s => s.startMs) =
      partialSums ((texts.map (fun t =>
        ((round ((t.length : ℚ) / (totalChars texts : ℚ) * T) : ℤ) : ℚ))).dropLast) ∧
    (mapSilencesToSegments texts silences T).map (fun s => s.durationMs) =
      (texts.map (fun t =>
        ((round ((t.length : ℚ) / (totalChars texts : ℚ) * T) : ℤ) : ℚ))).dropLast ++
      [T - ((texts.map (fun t =>
        ((round ((t.length : ℚ) / (totalChars texts : ℚ) * T) : ℤ) : ℚ))).dropLast).sum] ∧
    (∀ s ∈ mapSilencesToSegments texts silences T,
      s.endMs = s.startMs + s.durationMs) ∧
    ((mapSilencesToSegments texts silences T).map (fun s => s.endMs)).getLast? =
      some T := by
  have hmap : mapSilencesToSegments texts silences T =
      setLastEnd T (proportionalLoop (totalChars texts) T texts 0 0) := by
    unfold mapSilencesToSegments
    rw [if_pos hM]
  obtain ⟨h1, h2, h3, h4, h5⟩ := proportional_spec (totalChars texts) T texts 0 0 hne
  rw [hmap]
  refine ⟨h1, ?_, ?_, h4, h5⟩
  · rw [h2]
    exact (List.map_congr_left (fun a _ => zero_add a)).trans (List.map_id _)
  · rw [h3]
    refine congrArg₂ _ rfl (congrArg₂ _ (by rw [zero_add]) rfl)

theorem c9_proportional_fallback_witness :
    (mapSilencesToSegments ["ab", "c"] [] 300).map (fun s => s.text) =
      ["ab", "c"] ∧
    (mapSilencesToSegments ["ab", "c"] [] 300).map (fun s => s.startMs) =
      partialSums ((["ab", "c"].map (fun t =>
        ((round ((t.length : ℚ) / (totalChars ["ab", "c"] : ℚ) * 300) : ℤ) : ℚ))).dropLast) := by
  obtain ⟨h1, h2, _, _, _⟩ :=
    c9_proportional_fallback ["ab", "c"] [] 300 (by decide) (by decide) (by decide)
  exact ⟨h1, h2⟩

end Screenwright
